import Mathlib

/-!
Verification development for the retrieval-augmented document-analysis script
in main.py. The Python functions are shallowly embedded as Lean definitions:

* Text is modelled as List Char, Python ints as Int, float vectors as List R.
* chunk_document (a while loop) is embedded with an explicit fuel parameter;
  returning none for every fuel value means the loop never terminates.
* Python slicing text[a:b] is modelled by pySlice, including the clamping and
  negative-index normalization Python performs.
* The embedding provider (ollama get_embeddings) is an external collaborator,
  modelled as a function returning Except: ok vector, or error code.
* The in-code caching step (dict membership test plus assignment), the scoring
  loop, tuple sorting with reverse=True, top-k slicing, the streaming
  generation loop and the per-query session loop of main are each embedded as
  definitions below, following the source line by line.
-/

/-- Normalization of one Python slice bound for a sequence of length n:
negative indices count from the end and are clamped at 0, large indices are
clamped at n. -/
def pyIndex (n : Nat) (i : Int) : Nat :=
  if i < 0 then ((n : Int) + i).toNat else min i.toNat n

/-- Python slice text[a:b] on a character list. -/
def pySlice (text : List Char) (a b : Int) : List Char :=
  (text.take (pyIndex text.length b)).drop (pyIndex text.length a)

/-- The while loop of chunk_document (main.py lines 24-31), with explicit
fuel: each loop iteration consumes one unit of fuel, and none is returned when
fuel runs out before the loop condition start < len(text) becomes false. The
loop body is: end = start + chunk_size; chunk = text[start:end]; append chunk;
start = end - overlap. -/
def chunkLoop (text : List Char) (chunk_size overlap : Int) :
    Nat → Int → Option (List (List Char))
  | 0, start =>
      if start < (text.length : Int) then none else some []
  | fuel + 1, start =>
      if start < (text.length : Int) then
        match chunkLoop text chunk_size overlap fuel (start + chunk_size - overlap) with
        | some rest => some (pySlice text start (start + chunk_size) :: rest)
        | none => none
      else some []

/-- chunk_document (main.py lines 22-31): run the chunking loop from start = 0. -/
def chunk_document (text : List Char) (chunk_size overlap : Int) (fuel : Nat) :
    Option (List (List Char)) :=
  chunkLoop text chunk_size overlap fuel 0

/-- np.dot of two equal-length vectors: sum of the pairwise products. Vectors
of floats are modelled as lists of real numbers (ideal float arithmetic). -/
noncomputable def npDot (a b : List Real) : Real :=
  (List.zipWith (fun x y => x * y) a b).sum

/-- np.linalg.norm: the Euclidean norm, square root of the sum of squares. -/
noncomputable def npNorm (a : List Real) : Real :=
  Real.sqrt ((a.map (fun x => x * x)).sum)

/-- cosine_similarity (main.py lines 18-20): dot product over the product of
the norms. Division by zero yields 0 in this model; the code has no guard
either (numpy produces nan there). -/
noncomputable def cosine_similarity (a b : List Real) : Real :=
  npDot a b / (npNorm a * npNorm b)

/-- One entry of chunk_scores as built at main.py line 46: the Python tuple
(similarity, doc_name, chunk). The score type is kept abstract over any
linear order; the code uses floats, whose comparison on the values that occur
is a linear order. -/
abbrev ScoredChunk (S : Type) := S × List Char × List Char

/-- The key Python tuple comparison uses: lexicographic on
(score, doc_name, chunk_text), strings compared lexicographically. -/
def sortKey {S : Type} [LinearOrder S] (t : ScoredChunk S) :
    Lex (S × Lex (List Char × List Char)) :=
  toLex (t.1, toLex (t.2.1, t.2.2))

/-- The stable-sort relation realizing chunk_scores.sort(reverse=True): x
stays before y exactly when the tuple key of y is at most the tuple key of x
(descending order, original order kept on fully equal tuples). -/
def pyDescByKey {S : Type} [LinearOrder S] (x y : ScoredChunk S) : Bool :=
  decide (sortKey y ≤ sortKey x)

/-- chunk_scores.sort(reverse=True) followed by chunk_scores[:top_k]
(main.py lines 49-50): stable mergesort under the descending tuple order,
then the first top_k entries. -/
def rank_chunks {S : Type} [LinearOrder S] (chunk_scores : List (ScoredChunk S))
    (top_k : Nat) : List (ScoredChunk S) :=
  (chunk_scores.mergeSort pyDescByKey).take top_k

/-- Embedding vectors: lists of reals (List[float] in the code). -/
abbrev Vec := List Real

/-- Failure code of an external provider call (embedding or generation). -/
abbrev ProviderErr := Nat

/-- The session-wide embeddings_cache dict of main.py, keyed by the string
"{doc_name}_{i}"; keys are unique because an entry is only added after a
failed membership test. -/
abbrev Cache := List (List Char × Vec)

/-- Dict lookup by key. -/
def lookupCache : Cache → List Char → Option Vec
  | [], _ => none
  | (k, v) :: rest, key => if k = key then some v else lookupCache rest key

/-- The cache key f-string of main.py line 41: doc_name, underscore, then the
decimal digits of the chunk index. -/
def cacheKey (doc_name : List Char) (i : Nat) : List Char :=
  doc_name ++ '_' :: (Nat.repr i).toList

/-- The per-chunk get-or-compute step of main.py lines 41-43: if the key is
absent, call the provider and store the result; the similarity step then uses
the cached vector. A provider exception propagates before any assignment, so
the cache is returned unchanged in that case. -/
def getOrCompute (embed : List Char → Except ProviderErr Vec)
    (key chunk : List Char) (cache : Cache) : Except ProviderErr Vec × Cache :=
  match lookupCache cache key with
  | some v => (Except.ok v, cache)
  | none =>
      match embed chunk with
      | Except.ok v => (Except.ok v, (key, v) :: cache)
      | Except.error e => (Except.error e, cache)

/-- The inner loop of main.py lines 40-46 for one document: score each chunk
against the query embedding, threading the cache, aborting on the first
provider failure (the exception propagates). -/
def scoreDoc {S : Type} (embed : List Char → Except ProviderErr Vec)
    (sim : Vec → Vec → S) (query_embedding : Vec) (doc_name : List Char) :
    List (List Char) → Nat → Cache →
      Except ProviderErr (List (ScoredChunk S)) × Cache
  | [], _, cache => (Except.ok [], cache)
  | chunk :: rest, i, cache =>
      match getOrCompute embed (cacheKey doc_name i) chunk cache with
      | (Except.error e, cache1) => (Except.error e, cache1)
      | (Except.ok v, cache1) =>
          match scoreDoc embed sim query_embedding doc_name rest (i + 1) cache1 with
          | (Except.error e, cache2) => (Except.error e, cache2)
          | (Except.ok scores, cache2) =>
              (Except.ok ((sim query_embedding v, doc_name, chunk) :: scores), cache2)

/-- The outer loop of main.py lines 39-46 over document_chunks.items(), in
insertion order. -/
def scoreDocs {S : Type} (embed : List Char → Except ProviderErr Vec)
    (sim : Vec → Vec → S) (query_embedding : Vec) :
    List (List Char × List (List Char)) → Cache →
      Except ProviderErr (List (ScoredChunk S)) × Cache
  | [], cache => (Except.ok [], cache)
  | (doc_name, chunks) :: rest, cache =>
      match scoreDoc embed sim query_embedding doc_name chunks 0 cache with
      | (Except.error e, cache1) => (Except.error e, cache1)
      | (Except.ok s1, cache1) =>
          match scoreDocs embed sim query_embedding rest cache1 with
          | (Except.error e, cache2) => (Except.error e, cache2)
          | (Except.ok s2, cache2) => (Except.ok (s1 ++ s2), cache2)

/-- The context formatting of main.py lines 53-55: for each selected chunk,
newline, document name, colon, newline, chunk text, newline. -/
def formatContext {S : Type} : List (ScoredChunk S) → List Char
  | [] => []
  | (_, doc_name, chunk) :: rest =>
      '\n' :: (doc_name ++ ':' :: '\n' :: (chunk ++ '\n' :: formatContext rest))

/-- find_relevant_context (main.py lines 33-57), generic in the similarity
scoring function: embed the query, score every chunk of every document
through the cache, sort in reverse tuple order, keep top_k, format. The
returned pair carries the cache state as well, since the Python dict is
mutated in place and survives an exception. -/
def find_relevant_context {S : Type} [LinearOrder S]
    (embed : List Char → Except ProviderErr Vec) (sim : Vec → Vec → S)
    (query : List Char) (document_chunks : List (List Char × List (List Char)))
    (embeddings_cache : Cache) (top_k : Nat) :
    Except ProviderErr (List Char) × Cache :=
  match embed query with
  | Except.error e => (Except.error e, embeddings_cache)
  | Except.ok query_embedding =>
      match scoreDocs embed sim query_embedding document_chunks embeddings_cache with
      | (Except.error e, cache1) => (Except.error e, cache1)
      | (Except.ok chunk_scores, cache1) =>
          (Except.ok (formatContext (rank_chunks chunk_scores top_k)), cache1)

/-- find_relevant_context with the similarity fixed to cosine_similarity over
the reals, as the code has it. The theorems below quantify over the
similarity function, so they apply to this instantiation. -/
noncomputable def find_relevant_context_main
    (embed : List Char → Except ProviderErr Vec) (query : List Char)
    (document_chunks : List (List Char × List (List Char)))
    (embeddings_cache : Cache) (top_k : Nat) :
    Except ProviderErr (List Char) × Cache :=
  find_relevant_context embed cosine_similarity query document_chunks
    embeddings_cache top_k

/-- The streaming generation of analyze_documents_stream (main.py lines
116-129), seen at its interface: the external stream yields a list of text
fragments and then either ends normally or raises. On normal end the function
returns the concatenation of all fragments; on a mid-stream failure the
exception propagates and the accumulated fragments are discarded. -/
def analyze_documents_stream (fragments : List (List Char))
    (outcome : Option ProviderErr) : Except ProviderErr (List Char) :=
  match outcome with
  | none => Except.ok fragments.flatten
  | some e => Except.error e

/-- The per-query session loop of main (main.py lines 194-207): for each
query run find_relevant_context, then the streamed generation, then
save_analysis appends the (query, response) record to the output file. There
is no exception handler: a provider failure terminates the loop. The result
is the list of persisted records, the final cache, and the uncaught error if
one occurred. -/
def mainLoop {S : Type} [LinearOrder S]
    (embed : List Char → Except ProviderErr Vec) (sim : Vec → Vec → S)
    (streams : List Char → List (List Char) × Option ProviderErr)
    (document_chunks : List (List Char × List (List Char))) (top_k : Nat) :
    List (List Char) → Cache →
      List (List Char × List Char) × Cache × Option ProviderErr
  | [], cache => ([], cache, none)
  | query :: rest, cache =>
      match find_relevant_context embed sim query document_chunks cache top_k with
      | (Except.error e, cache1) => ([], cache1, some e)
      | (Except.ok _ctx, cache1) =>
          match analyze_documents_stream (streams query).1 (streams query).2 with
          | Except.error e => ([], cache1, some e)
          | Except.ok response =>
              let r := mainLoop embed sim streams document_chunks top_k rest cache1
              ((query, response) :: r.1, r.2.1, r.2.2)

/-- A cache evolved soundly from an older one: every entry is an original
entry or holds a vector returned by a successful provider call. -/
def cacheSound (embed : List Char → Except ProviderErr Vec)
    (old new : Cache) : Prop :=
  ∀ kv ∈ new, kv ∈ old ∨ ∃ chunk, embed chunk = Except.ok kv.2

/-- Fixture: a provider that always fails with code 5. -/
def embedDownW : List Char → Except ProviderErr Vec := fun _ => Except.error 5

/-- Fixture: a provider that always fails with code 7. -/
def embedNeverW : List Char → Except ProviderErr Vec := fun _ => Except.error 7

/-- Fixture: a provider returning the empty vector. -/
def embedOkW : List Char → Except ProviderErr Vec := fun _ => Except.ok []

/-- Fixture: a generation stream yielding the fragment "hi" and ending
normally. -/
def streamsOkW : List Char → List (List Char) × Option ProviderErr :=
  fun _ => ([['h', 'i']], none)

/-- Fixture: a constant rational similarity function. -/
def simQW : Vec → Vec → Rat := fun _ _ => 0

/-- Fixture: one document D with the single chunk "a". -/
def docsW : List (List Char × List (List Char)) := [(['D'], [['a']])]

/-- Master characterization of a successful chunking run: whenever the loop
returns a list, its i-th element exists exactly when the i-th window start
offset start + i*(chunk_size - overlap) is inside the text, and then equals
the Python slice of width chunk_size at that offset. -/
theorem chunkLoop_spec (text : List Char) (chunk_size overlap : Int)
    (hov : 0 ≤ overlap) (hsz : overlap < chunk_size) :
    ∀ (fuel : Nat) (start : Int), 0 ≤ start →
      ∀ l, chunkLoop text chunk_size overlap fuel start = some l →
        ∀ i : Nat,
          l[i]? = if start + i * (chunk_size - overlap) < (text.length : Int)
            then some (pySlice text (start + i * (chunk_size - overlap))
                        (start + i * (chunk_size - overlap) + chunk_size))
            else none := by
  intro fuel
  induction fuel with
  | zero =>
      intro start hstart l hl i
      rw [chunkLoop] at hl
      by_cases h : start < (text.length : Int)
      · simp [h] at hl
      · simp [h] at hl
        subst hl
        have hcond : ¬ (start + i * (chunk_size - overlap) < (text.length : Int)) := by
          have : (0 : Int) ≤ i * (chunk_size - overlap) :=
            mul_nonneg (by positivity) (by omega)
          omega
        simp [hcond]
  | succ fuel ih =>
      intro start hstart l hl i
      rw [chunkLoop] at hl
      by_cases h : start < (text.length : Int)
      · simp only [if_pos h] at hl
        cases hrec : chunkLoop text chunk_size overlap fuel (start + chunk_size - overlap) with
        | none => rw [hrec] at hl; exact absurd hl (by simp)
        | some rest =>
            rw [hrec] at hl
            simp only [Option.some.injEq] at hl
            subst hl
            have hstart' : (0 : Int) ≤ start + chunk_size - overlap := by omega
            have hrest := ih (start + chunk_size - overlap) hstart' rest hrec
            cases i with
            | zero =>
                simp [h]
            | succ j =>
                have hj := hrest j
                have harith : start + chunk_size - overlap + j * (chunk_size - overlap)
                    = start + (j + 1 : Nat) * (chunk_size - overlap) := by
                  push_cast
                  ring
                simp only [List.getElem?_cons_succ]
                rw [hj, harith]
      · simp only [if_neg h, Option.some.injEq] at hl
        subst hl
        have hcond : ¬ (start + i * (chunk_size - overlap) < (text.length : Int)) := by
          have : (0 : Int) ≤ i * (chunk_size - overlap) :=
            mul_nonneg (by positivity) (by omega)
          omega
        simp [hcond]

/-- With valid parameters the loop terminates: fuel equal to the remaining
text length is always enough, because the start offset advances by at least
one character per iteration. -/
theorem chunkLoop_total (text : List Char) (chunk_size overlap : Int)
    (hov : 0 ≤ overlap) (hsz : overlap < chunk_size) :
    ∀ (fuel : Nat) (start : Int), 0 ≤ start →
      (text.length : Int) ≤ start + fuel →
      ∃ l, chunkLoop text chunk_size overlap fuel start = some l := by
  intro fuel
  induction fuel with
  | zero =>
      intro start hstart hfuel
      rw [chunkLoop]
      have : ¬ start < (text.length : Int) := by omega
      simp [this]
  | succ fuel ih =>
      intro start hstart hfuel
      rw [chunkLoop]
      by_cases h : start < (text.length : Int)
      · obtain ⟨rest, hrest⟩ := ih (start + chunk_size - overlap) (by omega) (by push_cast at hfuel ⊢; omega)
        rw [if_pos h, hrest]
        exact ⟨_, rfl⟩
      · rw [if_neg h]
        exact ⟨[], rfl⟩

/-- pyIndex at a nonnegative (cast) index clamps at the length. -/
theorem pyIndex_natCast (n a : Nat) : pyIndex n (a : Int) = min a n := by
  rw [pyIndex, if_neg (Int.natCast_nonneg a).not_lt, Int.toNat_natCast]

/-- A slice with natural-number bounds in take/drop form. -/
theorem pySlice_cast_eq (text : List Char) (a w : Nat) :
    pySlice text (a : Int) ((a : Int) + (w : Int)) =
      (text.take (min (a + w) text.length)).drop (min a text.length) := by
  have h : ((a : Int) + (w : Int)) = ((a + w : Nat) : Int) := by push_cast; ring
  rw [pySlice, h, pyIndex_natCast, pyIndex_natCast]

/-- Length of a slice with natural-number bounds. -/
theorem pySlice_cast_length (text : List Char) (a w : Nat) :
    (pySlice text (a : Int) ((a : Int) + (w : Int))).length =
      min (a + w) text.length - min a text.length := by
  rw [pySlice_cast_eq]
  simp only [List.length_drop, List.length_take]
  omega

/-- Character p of the text is found inside the slice covering it, at the
offset p - a. -/
theorem pySlice_cast_getElem (text : List Char) (a w p : Nat)
    (h1 : a ≤ p) (h2 : p < a + w) (h3 : p < text.length) :
    (pySlice text (a : Int) ((a : Int) + (w : Int)))[p - a]? = text[p]? := by
  rw [pySlice_cast_eq]
  have hmina : min a text.length = a := by omega
  rw [hmina, List.getElem?_drop]
  have hp : a + (p - a) = p := by omega
  rw [hp, List.getElem?_take, if_pos (by omega)]

/-- Two adjacent full-width windows: the suffix of the earlier window past the
advance step coincides with the overlap-length front of the later window. -/
theorem pySlice_adjacent (text : List Char) (a sN ovN : Nat)
    (hfull : a + (sN + ovN) ≤ text.length) :
    (pySlice text (a : Int) ((a : Int) + ((sN + ovN : Nat) : Int))).drop sN
      = (pySlice text ((a + sN : Nat) : Int)
          (((a + sN : Nat) : Int) + ((sN + ovN : Nat) : Int))).take ovN
    ∧ ((pySlice text (a : Int) ((a : Int) + ((sN + ovN : Nat) : Int))).drop sN).length
      = ovN := by
  rw [pySlice_cast_eq, pySlice_cast_eq]
  have e1 : min (a + (sN + ovN)) text.length = a + (sN + ovN) := by omega
  have e2 : min a text.length = a := by omega
  have e3 : min (a + sN) text.length = a + sN := by omega
  rw [e1, e2, e3, List.drop_drop, List.take_drop, List.take_take]
  have e4 : min (a + sN + ovN) (min (a + sN + (sN + ovN)) text.length)
      = a + (sN + ovN) := by omega
  rw [e4]
  constructor
  · congr 1 <;> omega
  · simp only [List.length_drop, List.length_take]
    omega

/-- Window characterization of a successful chunk_document run, specialised to
start = 0. -/
theorem chunk_document_getElem (text : List Char) (chunk_size overlap : Int)
    (hov : 0 ≤ overlap) (hsz : overlap < chunk_size) (fuel : Nat)
    (l : List (List Char)) (h : chunk_document text chunk_size overlap fuel = some l)
    (i : Nat) :
    l[i]? = if (i : Int) * (chunk_size - overlap) < (text.length : Int)
      then some (pySlice text ((i : Int) * (chunk_size - overlap))
                  ((i : Int) * (chunk_size - overlap) + chunk_size))
      else none := by
  have := chunkLoop_spec text chunk_size overlap hov hsz fuel 0 le_rfl l h i
  simpa using this

/-- Claim C1, amended: for chunk_size > overlap >= 0 the chunking loop
terminates (fuel equal to the text length suffices), chunk i is exactly the
Python slice of width chunk_size starting at offset i*(chunk_size - overlap)
and a chunk exists exactly when that offset lies inside the text, every chunk
has length at most chunk_size, every character of the text appears in at
least one chunk at the expected offset, and every adjacent pair whose earlier
chunk is full-width (its window fits inside the text) shares exactly overlap
characters (the suffix of chunk i past the advance step equals the first
overlap characters of chunk i+1). The original claim is amended in two
places: a chunk other than the final one can be shorter than chunk_size, and
adjacent chunks whose earlier member is short share fewer than overlap
characters, as the counterexample shows. -/
theorem chunk_document_spec (text : List Char) (chunk_size overlap : Int)
    (hov : 0 ≤ overlap) (hsz : overlap < chunk_size) :
    ∃ l, chunk_document text chunk_size overlap text.length = some l
      ∧ (∀ i : Nat, l[i]? =
          if (i : Int) * (chunk_size - overlap) < (text.length : Int)
          then some (pySlice text ((i : Int) * (chunk_size - overlap))
                      ((i : Int) * (chunk_size - overlap) + chunk_size))
          else none)
      ∧ (∀ (i : Nat) (ci : List Char), l[i]? = some ci → ci.length ≤ chunk_size.toNat)
      ∧ (∀ p : Nat, p < text.length → ∃ (i : Nat) (ci : List Char),
          l[i]? = some ci ∧ i * (chunk_size - overlap).toNat ≤ p ∧
          ci[p - i * (chunk_size - overlap).toNat]? = text[p]?)
      ∧ (∀ (i : Nat) (ci ci1 : List Char), l[i]? = some ci → l[i + 1]? = some ci1 →
          (i : Int) * (chunk_size - overlap) + chunk_size ≤ (text.length : Int) →
          ci.drop (chunk_size - overlap).toNat = ci1.take overlap.toNat ∧
          (ci.drop (chunk_size - overlap).toNat).length = overlap.toNat) := by
  obtain ⟨l, hl⟩ := chunkLoop_total text chunk_size overlap hov hsz text.length 0
    le_rfl (by omega)
  have G := chunk_document_getElem text chunk_size overlap hov hsz text.length l hl
  set sN := (chunk_size - overlap).toNat with hsN
  set csN := chunk_size.toNat with hcsN
  set ovN := overlap.toNat with hovN
  have hs : (sN : Int) = chunk_size - overlap := Int.toNat_of_nonneg (by omega)
  have hcs : (csN : Int) = chunk_size := Int.toNat_of_nonneg (by omega)
  have hovc : (ovN : Int) = overlap := Int.toNat_of_nonneg hov
  have hsplit : csN = sN + ovN := by omega
  have hoff : ∀ i : Nat, (i : Int) * (chunk_size - overlap) = ((i * sN : Nat) : Int) := by
    intro i
    rw [← hs]
    push_cast
    ring
  have hwin : ∀ i : Nat, (i : Int) * (chunk_size - overlap) + chunk_size
      = ((i * sN : Nat) : Int) + ((csN : Nat) : Int) := by
    intro i
    rw [hoff i, hcs]
  refine ⟨l, hl, G, ?_, ?_, ?_⟩
  · -- every chunk has length at most chunk_size
    intro i ci hci
    rw [G i] at hci
    by_cases hcond : (i : Int) * (chunk_size - overlap) < (text.length : Int)
    · rw [if_pos hcond, Option.some.injEq] at hci
      subst hci
      rw [hoff i, ← hcs, pySlice_cast_length]
      omega
    · rw [if_neg hcond] at hci
      exact absurd hci (by simp)
  · -- coverage: every character appears in some chunk
    intro p hp
    have hsN1 : 1 ≤ sN := by omega
    refine ⟨p / sN, ?_⟩
    have hle : (p / sN) * sN ≤ p := Nat.div_mul_le_self p sN
    have hmod := Nat.div_add_mod p sN
    rw [Nat.mul_comm sN (p / sN)] at hmod
    have hmlt : p % sN < sN := Nat.mod_lt p (by omega)
    have hlt : p < (p / sN) * sN + sN := by omega
    have hcond : ((p / sN : Nat) : Int) * (chunk_size - overlap) < (text.length : Int) := by
      rw [hoff (p / sN)]
      exact_mod_cast Nat.lt_of_le_of_lt hle hp
    refine ⟨pySlice text (((p / sN) : Nat) * (chunk_size - overlap) : Int)
      ((((p / sN) : Nat) : Int) * (chunk_size - overlap) + chunk_size), ?_, hle, ?_⟩
    · rw [G (p / sN), if_pos hcond]
    · rw [hoff (p / sN), ← hcs]
      refine pySlice_cast_getElem text ((p / sN) * sN) csN p hle ?_ hp
      exact Nat.lt_of_lt_of_le hlt (Nat.add_le_add_left (show sN ≤ csN by omega) _)
  · -- adjacent chunks with a full-width earlier member share exactly overlap chars
    intro i ci ci1 hci hci1 hfull
    rw [G i] at hci
    rw [G (i + 1)] at hci1
    by_cases hcond : (i : Int) * (chunk_size - overlap) < (text.length : Int)
    swap
    · rw [if_neg hcond] at hci
      exact absurd hci (by simp)
    by_cases hcond1 : ((i + 1 : Nat) : Int) * (chunk_size - overlap) < (text.length : Int)
    swap
    · rw [if_neg hcond1] at hci1
      exact absurd hci1 (by simp)
    rw [if_pos hcond, Option.some.injEq] at hci
    rw [if_pos hcond1, Option.some.injEq] at hci1
    subst hci
    subst hci1
    have hfullN : i * sN + (sN + ovN) ≤ text.length := by
      rw [hoff i, hcs.symm] at hfull
      have : ((i * sN : Nat) : Int) + ((csN : Nat) : Int) ≤ (text.length : Int) := hfull
      omega
    have hadj := pySlice_adjacent text (i * sN) sN ovN hfullN
    have ha1 : ((i + 1 : Nat) : Int) * (chunk_size - overlap)
        = ((i * sN + sN : Nat) : Int) := by
      rw [← hs]
      push_cast
      ring
    have hcast : ((csN : Nat) : Int) = ((sN + ovN : Nat) : Int) := by
      rw [hsplit]
    rw [hoff i, ha1, ← hcs, hcast]
    exact hadj

/-- Closed witness for chunk_document_spec at text "ab", chunk_size 2,
overlap 1. -/
theorem chunk_document_spec_witness :
    (chunk_document (['a', 'b']) 2 1 (['a', 'b'] : List Char).length).isSome = true := by
  obtain ⟨l, hl, -, -, -, -⟩ := chunk_document_spec (['a', 'b']) 2 1 (by norm_num) (by norm_num)
  rw [hl]
  rfl

/-- Counterexample to claim C1 as stated: with text "abc", chunk_size 5 and
overlap 4 (valid parameters: 5 > 4 >= 0) the code produces the chunks
["abc", "bc", "c"]. Chunk 0 has length 3, shorter than chunk_size = 5,
although it is not the final chunk (there are three chunks), refuting the
conjunct that only the final chunk may be shorter than chunk_size; and the
adjacent chunks 0 and 1, neither of which is the final chunk, share only the
2-character region "bc" (the part of chunk 0 past the advance step), not
exactly overlap = 4 characters, refuting the sharing conjunct. -/
theorem chunk_document_claim_counterexample :
    chunk_document (['a', 'b', 'c']) 5 4 3
        = some [['a', 'b', 'c'], ['b', 'c'], ['c']]
      ∧ (['a', 'b', 'c'] : List Char).length ≠ (5 : Int).toNat
      ∧ ((['a', 'b', 'c'] : List Char).drop ((5 : Int) - 4).toNat).length
          ≠ (4 : Int).toNat := by
  decide

/-- Claim C2: with chunk_size <= overlap and a non-empty text, the chunking
loop never terminates: for every amount of fuel the loop is still running
(result none), because the start offset never advances past 0. In particular
the code performs no validation and raises no error for this configuration. -/
theorem chunk_document_invalid_params (text : List Char) (chunk_size overlap : Int)
    (hle : chunk_size ≤ overlap) (hne : text ≠ []) :
    ∀ fuel, chunk_document text chunk_size overlap fuel = none := by
  have hlen : 0 < text.length := List.length_pos.mpr hne
  suffices h : ∀ (fuel : Nat) (start : Int), start ≤ 0 →
      chunkLoop text chunk_size overlap fuel start = none by
    intro fuel
    exact h fuel 0 le_rfl
  intro fuel
  induction fuel with
  | zero =>
      intro start hstart
      rw [chunkLoop, if_pos (show start < (text.length : Int) by
        have : (1 : Int) ≤ text.length := by exact_mod_cast hlen
        omega)]
  | succ fuel ih =>
      intro start hstart
      rw [chunkLoop, if_pos (show start < (text.length : Int) by
        have : (1 : Int) ≤ text.length := by exact_mod_cast hlen
        omega)]
      rw [ih (start + chunk_size - overlap) (by omega)]

/-- Closed witness for chunk_document_invalid_params: chunk_size = overlap = 1
on text "a" is still looping after 5 iterations. -/
theorem chunk_document_invalid_params_witness :
    chunk_document (['a']) 1 1 5 = none :=
  chunk_document_invalid_params (['a']) 1 1 (by norm_num) (by simp) 5

/-- Claim C10: with valid parameters, chunking the empty text yields the empty
chunk list (for any fuel, in particular the loop exits at once), and every
chunk of any successful run is non-empty. -/
theorem chunk_document_empty_and_nonempty (chunk_size overlap : Int)
    (hov : 0 ≤ overlap) (hsz : overlap < chunk_size) :
    (∀ fuel, chunk_document ([] : List Char) chunk_size overlap fuel = some [])
      ∧ (∀ (text : List Char) (fuel : Nat) (l : List (List Char)),
          chunk_document text chunk_size overlap fuel = some l →
          ∀ (i : Nat) (ci : List Char), l[i]? = some ci → ci ≠ []) := by
  constructor
  · intro fuel
    cases fuel <;> simp [chunk_document, chunkLoop]
  · intro text fuel l hl i ci hci
    have G := chunk_document_getElem text chunk_size overlap hov hsz fuel l hl i
    rw [G] at hci
    by_cases hcond : (i : Int) * (chunk_size - overlap) < (text.length : Int)
    · rw [if_pos hcond, Option.some.injEq] at hci
      subst hci
      set sN := (chunk_size - overlap).toNat with hsN
      set csN := chunk_size.toNat with hcsN
      have hs : (sN : Int) = chunk_size - overlap := Int.toNat_of_nonneg (by omega)
      have hcs : (csN : Int) = chunk_size := Int.toNat_of_nonneg (by omega)
      have hoff : (i : Int) * (chunk_size - overlap) = ((i * sN : Nat) : Int) := by
        rw [← hs]
        push_cast
        ring
      have haN : i * sN < text.length := by
        rw [hoff] at hcond
        exact_mod_cast hcond
      rw [hoff, ← hcs]
      have hlen := pySlice_cast_length text (i * sN) csN
      intro hnil
      rw [hnil] at hlen
      simp only [List.length_nil] at hlen
      omega
    · rw [if_neg hcond] at hci
      exact absurd hci (by simp)

/-- Closed witness for chunk_document_empty_and_nonempty: the empty text gives
no chunks, and the single chunk of text "a" with chunk_size 2, overlap 1 is
non-empty. -/
theorem chunk_document_empty_and_nonempty_witness :
    chunk_document ([] : List Char) 2 1 0 = some [] ∧ (['a'] : List Char) ≠ [] := by
  refine ⟨(chunk_document_empty_and_nonempty 2 1 (by norm_num) (by norm_num)).1 0, ?_⟩
  exact (chunk_document_empty_and_nonempty 2 1 (by norm_num) (by norm_num)).2
    (['a']) 1 ([['a']]) (by decide) 0 (['a']) (by decide)

/-- Pairwise products of a list with itself are its squares. -/
theorem zipWith_mul_self (l : List Real) :
    List.zipWith (fun x y => x * y) l l = l.map (fun x => x * x) := by
  induction l with
  | nil => rfl
  | cons a t ih => simp [ih]

/-- A sum of squares is nonnegative. -/
theorem sum_sq_nonneg (l : List Real) : 0 ≤ (l.map (fun x => x * x)).sum := by
  refine List.sum_nonneg ?_
  intro x hx
  obtain ⟨y, -, rfl⟩ := List.mem_map.mp hx
  exact mul_self_nonneg y

/-- A sum of squares vanishes only when every entry vanishes. -/
theorem sum_sq_eq_zero {l : List Real} (h : (l.map (fun x => x * x)).sum = 0) :
    ∀ x ∈ l, x = 0 := by
  induction l with
  | nil => simp
  | cons a t ih =>
      simp only [List.map_cons, List.sum_cons] at h
      have h1 : 0 ≤ a * a := mul_self_nonneg a
      have h2 : 0 ≤ (t.map (fun x => x * x)).sum := sum_sq_nonneg t
      have ha : a * a = 0 := by linarith
      have ht : (t.map (fun x => x * x)).sum = 0 := by linarith
      intro x hx
      rcases List.mem_cons.mp hx with rfl | hx
      · exact mul_self_eq_zero.mp ha
      · exact ih ht x hx

/-- Claim C9: cosine similarity is symmetric, and the similarity of a vector
having some non-zero entry with itself is exactly 1 (modelled over the reals,
ideal float arithmetic). -/
theorem cosine_similarity_symm_self (a b : List Real) :
    cosine_similarity a b = cosine_similarity b a
      ∧ ((∃ x ∈ a, x ≠ 0) → cosine_similarity a a = 1) := by
  constructor
  · unfold cosine_similarity npDot
    rw [List.zipWith_comm_of_comm (fun x y => x * y) mul_comm a b,
      mul_comm (npNorm a) (npNorm b)]
  · rintro ⟨x, hx, hx0⟩
    unfold cosine_similarity npDot npNorm
    rw [zipWith_mul_self]
    have hnn : 0 ≤ (a.map (fun x => x * x)).sum := sum_sq_nonneg a
    have hne : (a.map (fun x => x * x)).sum ≠ 0 := fun h => hx0 (sum_sq_eq_zero h x hx)
    rw [Real.mul_self_sqrt hnn]
    exact div_self hne

/-- Closed witness for cosine_similarity_symm_self at the vector (1, 0). -/
theorem cosine_similarity_symm_self_witness :
    cosine_similarity [(1 : Real), 0] [(1 : Real), 0] = 1 :=
  (cosine_similarity_symm_self [(1 : Real), 0] [(1 : Real), 0]).2
    ⟨1, by simp, one_ne_zero⟩

/-- The descending tuple relation is transitive. -/
theorem pyDescByKey_trans {S : Type} [LinearOrder S] :
    ∀ x y z : ScoredChunk S, pyDescByKey x y = true → pyDescByKey y z = true →
      pyDescByKey x z = true := by
  intro x y z h1 h2
  exact decide_eq_true (le_trans (of_decide_eq_true h2) (of_decide_eq_true h1))

/-- The descending tuple relation is total. -/
theorem pyDescByKey_total {S : Type} [LinearOrder S] :
    ∀ x y : ScoredChunk S, (pyDescByKey x y || pyDescByKey y x) = true := by
  intro x y
  rcases le_total (sortKey y) (sortKey x) with h | h <;>
    simp [pyDescByKey, h]

/-- The ranking output is pairwise sorted by the descending tuple key. -/
theorem rank_chunks_pairwise {S : Type} [LinearOrder S]
    (chunk_scores : List (ScoredChunk S)) (top_k : Nat) :
    (rank_chunks chunk_scores top_k).Pairwise (fun x y => pyDescByKey x y = true) := by
  have hs : (chunk_scores.mergeSort pyDescByKey).Pairwise
      (fun x y => pyDescByKey x y = true) :=
    List.sorted_mergeSort pyDescByKey_trans pyDescByKey_total chunk_scores
  exact hs.sublist (List.take_sublist top_k _)

/-- Claim C5: the ranking step selects exactly min(top_k, number of scored
chunks) entries, in non-increasing order of similarity score. -/
theorem rank_chunks_topk {S : Type} [LinearOrder S]
    (chunk_scores : List (ScoredChunk S)) (top_k : Nat) :
    (rank_chunks chunk_scores top_k).length = min top_k chunk_scores.length
      ∧ (rank_chunks chunk_scores top_k).Pairwise (fun x y => y.1 ≤ x.1) := by
  constructor
  · rw [rank_chunks, List.length_take, List.length_mergeSort]
  · refine (rank_chunks_pairwise chunk_scores top_k).imp ?_
    intro x y h
    rcases (Prod.Lex.le_iff _ _).mp (of_decide_eq_true h) with hlt | ⟨heq, -⟩
    · exact le_of_lt hlt
    · exact le_of_eq heq

/-- Closed witness for rank_chunks_topk on a 2-element corpus with top_k 1. -/
theorem rank_chunks_topk_witness :
    (rank_chunks [((1 : Rat), ['A'], ['x']), ((0 : Rat), ['B'], ['y'])] 1).length
      = min 1 2 :=
  (rank_chunks_topk [((1 : Rat), ['A'], ['x']), ((0 : Rat), ['B'], ['y'])] 1).1

/-- Counterexample to claim C4 as stated: two chunks with equal score 0,
inserted as document A first and document B second, are ranked with B first,
because Python sorts the whole tuples (score, doc_name, chunk) in reverse
order, so on a score tie the lexicographically larger document name wins; the
first-seen chunk does not rank first. -/
theorem rank_chunks_tie_counterexample :
    rank_chunks [((0 : Rat), ['A'], ['x']), ((0 : Rat), ['B'], ['y'])] 2
        = [((0 : Rat), ['B'], ['y']), ((0 : Rat), ['A'], ['x'])]
      ∧ [((0 : Rat), ['B'], ['y']), ((0 : Rat), ['A'], ['x'])]
          ≠ [((0 : Rat), ['A'], ['x']), ((0 : Rat), ['B'], ['y'])] := by
  constructor
  · rw [rank_chunks, List.mergeSort]
    simp [List.mergeSort, List.merge, pyDescByKey, sortKey]
    decide
  · decide

/-- Claim C4 amended: on equal similarity scores the ranking orders chunks by
descending lexicographic (doc_name, chunk_text) — Python compares the full
tuples under reverse=True — not by original insertion order. -/
theorem rank_chunks_tie_order {S : Type} [LinearOrder S]
    (chunk_scores : List (ScoredChunk S)) (top_k : Nat) :
    (rank_chunks chunk_scores top_k).Pairwise
      (fun x y => x.1 = y.1 → toLex (y.2.1, y.2.2) ≤ toLex (x.2.1, x.2.2)) := by
  refine (rank_chunks_pairwise chunk_scores top_k).imp ?_
  intro x y h heq
  rcases (Prod.Lex.le_iff _ _).mp (of_decide_eq_true h) with hlt | ⟨-, hle⟩
  · rw [heq] at hlt
    exact absurd hlt (lt_irrefl _)
  · exact hle

/-- Closed witness for rank_chunks_tie_order on the tied 2-element corpus. -/
theorem rank_chunks_tie_order_witness :
    (rank_chunks [((0 : Rat), ['A'], ['x']), ((0 : Rat), ['B'], ['y'])] 2).Pairwise
      (fun x y => x.1 = y.1 → toLex (y.2.1, y.2.2) ≤ toLex (x.2.1, x.2.2)) :=
  rank_chunks_tie_order [((0 : Rat), ['A'], ['x']), ((0 : Rat), ['B'], ['y'])] 2

/-- Claim C3: for a key not yet cached, a successful get-or-compute stores
the provider result and a second get-or-compute on the same key returns the
cached vector without consulting any provider (the result is the same for
every provider function, with the cache unchanged); a failed provider call
propagates the error, leaves the cache unchanged (so the key is still
absent), and a later retry with a recovered provider calls it and caches the
result. -/
theorem getOrCompute_once (embed : List Char → Except ProviderErr Vec)
    (key chunk : List Char) (cache : Cache)
    (habsent : lookupCache cache key = none) :
    (∀ v, embed chunk = Except.ok v →
        getOrCompute embed key chunk cache = (Except.ok v, (key, v) :: cache)
          ∧ ∀ embed2 : List Char → Except ProviderErr Vec,
              getOrCompute embed2 key chunk ((key, v) :: cache)
                = (Except.ok v, (key, v) :: cache))
      ∧ (∀ e, embed chunk = Except.error e →
          getOrCompute embed key chunk cache = (Except.error e, cache)
            ∧ ∀ (embed2 : List Char → Except ProviderErr Vec) (v : Vec),
                embed2 chunk = Except.ok v →
                getOrCompute embed2 key chunk cache
                  = (Except.ok v, (key, v) :: cache)) := by
  constructor
  · intro v hv
    constructor
    · rw [getOrCompute, habsent, hv]
    · intro embed2
      rw [getOrCompute]
      simp [lookupCache]
  · intro e he
    constructor
    · rw [getOrCompute, habsent, he]
    · intro embed2 v hv
      rw [getOrCompute, habsent, hv]

/-- Closed witness for getOrCompute_once: one successful call on the empty
cache, and one failing call leaving the empty cache unchanged. -/
theorem getOrCompute_once_witness :
    getOrCompute embedOkW (['k']) (['c']) []
        = (Except.ok [], [((['k'] : List Char), ([] : Vec))])
      ∧ getOrCompute embedDownW (['k']) (['c']) [] = (Except.error 5, []) := by
  constructor
  · exact ((getOrCompute_once embedOkW (['k']) (['c']) [] rfl).1 [] rfl).1
  · exact ((getOrCompute_once embedDownW (['k']) (['c']) [] rfl).2 5 rfl).1

/-- Any cache is a sound evolution of itself. -/
theorem cacheSound_refl (embed : List Char → Except ProviderErr Vec) (c : Cache) :
    cacheSound embed c c :=
  fun _ h => Or.inl h

/-- Sound evolutions compose. -/
theorem cacheSound_trans (embed : List Char → Except ProviderErr Vec)
    {a b c : Cache} (h1 : cacheSound embed a b) (h2 : cacheSound embed b c) :
    cacheSound embed a c := by
  intro kv hkv
  rcases h2 kv hkv with hb | hok
  · exact h1 kv hb
  · exact Or.inr hok

/-- The get-or-compute step only adds entries obtained from a successful
provider call. -/
theorem getOrCompute_cacheSound (embed : List Char → Except ProviderErr Vec)
    (key chunk : List Char) (cache : Cache) :
    cacheSound embed cache (getOrCompute embed key chunk cache).2 := by
  intro kv hkv
  rw [getOrCompute] at hkv
  cases hl : lookupCache cache key with
  | some v =>
      rw [hl] at hkv
      exact Or.inl hkv
  | none =>
      rw [hl] at hkv
      cases he : embed chunk with
      | ok v =>
          rw [he] at hkv
          rcases List.mem_cons.mp hkv with rfl | hmem
          · exact Or.inr ⟨chunk, he⟩
          · exact Or.inl hmem
      | error e =>
          rw [he] at hkv
          exact Or.inl hkv

/-- The per-document scoring loop only adds sound cache entries. -/
theorem scoreDoc_cacheSound {S : Type} (embed : List Char → Except ProviderErr Vec)
    (sim : Vec → Vec → S) (query_embedding : Vec) (doc_name : List Char) :
    ∀ (chunks : List (List Char)) (i : Nat) (cache : Cache),
      cacheSound embed cache
        (scoreDoc embed sim query_embedding doc_name chunks i cache).2 := by
  intro chunks
  induction chunks with
  | nil =>
      intro i cache
      exact cacheSound_refl embed cache
  | cons c rest ih =>
      intro i cache
      rw [scoreDoc]
      cases hgo : getOrCompute embed (cacheKey doc_name i) c cache with
      | mk r cache1 =>
          have hsound1 : cacheSound embed cache cache1 := by
            have := getOrCompute_cacheSound embed (cacheKey doc_name i) c cache
            rw [hgo] at this
            exact this
          cases r with
          | error e =>
              simpa using hsound1
          | ok v =>
              have hsound2 := ih (i + 1) cache1
              cases hrec : scoreDoc embed sim query_embedding doc_name rest (i + 1) cache1 with
              | mk r2 cache2 =>
                  rw [hrec] at hsound2
                  simp only [hrec]
                  cases r2 with
                  | error e =>
                      simpa using cacheSound_trans embed hsound1 hsound2
                  | ok scores =>
                      simpa using cacheSound_trans embed hsound1 hsound2

/-- The all-documents scoring loop only adds sound cache entries. -/
theorem scoreDocs_cacheSound {S : Type} (embed : List Char → Except ProviderErr Vec)
    (sim : Vec → Vec → S) (query_embedding : Vec) :
    ∀ (document_chunks : List (List Char × List (List Char))) (cache : Cache),
      cacheSound embed cache
        (scoreDocs embed sim query_embedding document_chunks cache).2 := by
  intro document_chunks
  induction document_chunks with
  | nil =>
      intro cache
      exact cacheSound_refl embed cache
  | cons d rest ih =>
      intro cache
      obtain ⟨doc_name, chunks⟩ := d
      rw [scoreDocs]
      cases h1 : scoreDoc embed sim query_embedding doc_name chunks 0 cache with
      | mk r cache1 =>
          have hsound1 : cacheSound embed cache cache1 := by
            have := scoreDoc_cacheSound embed sim query_embedding doc_name chunks 0 cache
            rw [h1] at this
            exact this
          cases r with
          | error e => simpa using hsound1
          | ok s1 =>
              have hsound2 := ih cache1
              cases h2 : scoreDocs embed sim query_embedding rest cache1 with
              | mk r2 cache2 =>
                  rw [h2] at hsound2
                  simp only [h2]
                  cases r2 with
                  | error e =>
                      simpa using cacheSound_trans embed hsound1 hsound2
                  | ok s2 =>
                      simpa using cacheSound_trans embed hsound1 hsound2

/-- One retrieval pass only adds sound cache entries, whether it succeeds or
raises. -/
theorem find_relevant_context_cacheSound {S : Type} [LinearOrder S]
    (embed : List Char → Except ProviderErr Vec) (sim : Vec → Vec → S)
    (query : List Char) (document_chunks : List (List Char × List (List Char)))
    (cache : Cache) (top_k : Nat) :
    cacheSound embed cache
      (find_relevant_context embed sim query document_chunks cache top_k).2 := by
  rw [find_relevant_context]
  cases hq : embed query with
  | error e => exact cacheSound_refl embed cache
  | ok query_embedding =>
      have h := scoreDocs_cacheSound embed sim query_embedding document_chunks cache
      cases hs : scoreDocs embed sim query_embedding document_chunks cache with
      | mk r cache1 =>
          rw [hs] at h
          simp only [hs]
          cases r with
          | error e => simpa using h
          | ok chunk_scores => simpa using h

/-- Claim C7, amended: when the embedding provider fails during retrieval for
a query, the uncaught exception terminates the session loop at that query: no
record is persisted for it or for any later query and the loop reports the
error; the shared cache is not corrupted, in the sense that every entry of
the cache the failing retrieval leaves behind is either a prior entry or a
vector obtained from a successful provider call (in particular nothing is
stored for the failing key). The original claim said the session proceeds to
the next query, which the counterexample refutes. -/
theorem mainLoop_retrieval_failure {S : Type} [LinearOrder S]
    (embed : List Char → Except ProviderErr Vec) (sim : Vec → Vec → S)
    (streams : List Char → List (List Char) × Option ProviderErr)
    (document_chunks : List (List Char × List (List Char))) (top_k : Nat)
    (query : List Char) (rest : List (List Char)) (cache : Cache)
    (e : ProviderErr) (cache1 : Cache)
    (hfail : find_relevant_context embed sim query document_chunks cache top_k
        = (Except.error e, cache1)) :
    mainLoop embed sim streams document_chunks top_k (query :: rest) cache
        = ([], cache1, some e)
      ∧ cacheSound embed cache cache1 := by
  constructor
  · rw [mainLoop, hfail]
  · have := find_relevant_context_cacheSound embed sim query document_chunks cache top_k
    rw [hfail] at this
    exact this

/-- Closed witness for mainLoop_retrieval_failure: provider down, two queries,
empty starting cache. -/
theorem mainLoop_retrieval_failure_witness :
    mainLoop embedDownW simQW streamsOkW docsW 3 [['q', '1'], ['q', '2']] []
        = ([], [], some 5)
      ∧ cacheSound embedDownW [] [] :=
  mainLoop_retrieval_failure embedDownW simQW streamsOkW docsW 3
    (['q', '1']) [['q', '2']] [] 5 [] rfl

/-- Counterexample to claim C7 as stated: with the embedding provider down,
running the two queries q1, q2 persists no record at all and stops with the
uncaught error after q1, although the generation stream for q2 is healthy;
the session does not proceed to process q2, contrary to the claim. -/
theorem mainLoop_continue_counterexample :
    mainLoop embedDownW simQW streamsOkW docsW 3 [['q', '1'], ['q', '2']] []
        = ([], [], some 5)
      ∧ (streamsOkW ['q', '2']).2 = none :=
  ⟨rfl, rfl⟩

/-- Claim C8: every record the session loop persists is the complete
accumulation of a generation stream that terminated normally: for any
persisted record (q, resp), the stream for q ended without error and resp is
the concatenation of all its fragments; and when the stream for a query fails
mid-way (after any number of fragments), analyze_documents_stream raises
instead of returning, the query is aborted as failed (the loop stops with the
error) and its partially accumulated text is discarded, never persisted. -/
theorem mainLoop_no_partial_persist {S : Type} [LinearOrder S]
    (embed : List Char → Except ProviderErr Vec) (sim : Vec → Vec → S)
    (streams : List Char → List (List Char) × Option ProviderErr)
    (document_chunks : List (List Char × List (List Char))) (top_k : Nat) :
    (∀ (queries : List (List Char)) (cache : Cache) (q resp : List Char),
      (q, resp) ∈ (mainLoop embed sim streams document_chunks top_k queries cache).1 →
      (streams q).2 = none ∧ resp = (streams q).1.flatten)
    ∧ (∀ (query : List Char) (rest : List (List Char)) (cache : Cache)
        (ctx : List Char) (cache1 : Cache) (e : ProviderErr),
      find_relevant_context embed sim query document_chunks cache top_k
          = (Except.ok ctx, cache1) →
      (streams query).2 = some e →
      mainLoop embed sim streams document_chunks top_k (query :: rest) cache
          = ([], cache1, some e)) := by
  refine ⟨?_, ?_⟩
  swap
  · intro query rest cache ctx cache1 e hf hs
    rw [mainLoop, hf, analyze_documents_stream.eq_def, hs]
  intro queries
  induction queries with
  | nil =>
      intro cache q resp h
      simp [mainLoop] at h
  | cons query rest ih =>
      intro cache q resp h
      rw [mainLoop] at h
      cases hf : find_relevant_context embed sim query document_chunks cache top_k with
      | mk r cache1 =>
          rw [hf] at h
          cases r with
          | error e => simp at h
          | ok ctx =>
              simp only at h
              cases hstr : analyze_documents_stream (streams query).1 (streams query).2 with
              | error e =>
                  rw [hstr] at h
                  simp at h
              | ok response =>
                  rw [hstr] at h
                  simp only at h
                  rcases List.mem_cons.mp h with heq | hmem
                  · rw [Prod.mk.injEq] at heq
                    obtain ⟨rfl, rfl⟩ := heq
                    rw [analyze_documents_stream.eq_def] at hstr
                    cases ho : (streams q).2 with
                    | none =>
                        rw [ho] at hstr
                        refine ⟨rfl, ?_⟩
                        injection hstr with h2
                        exact h2.symm
                    | some e =>
                        rw [ho] at hstr
                        exact absurd hstr (by simp)
                  · exact ih cache1 q resp hmem

/-- Closed witness for mainLoop_no_partial_persist: one query, empty corpus,
healthy provider and stream; the persisted record is the full accumulation of
the stream fragments. -/
theorem mainLoop_no_partial_persist_witness :
    (streamsOkW ['q']).2 = none
      ∧ (['h', 'i'] : List Char) = (streamsOkW ['q']).1.flatten := by
  have hrun : mainLoop embedOkW simQW streamsOkW [] 3 [['q']] []
      = ([((['q'] : List Char), (['h', 'i'] : List Char))], [], none) := by
    simp [mainLoop, find_relevant_context, scoreDocs, analyze_documents_stream,
      rank_chunks, formatContext, embedOkW, streamsOkW]
  refine (mainLoop_no_partial_persist embedOkW simQW streamsOkW [] 3).1 [['q']] []
    (['q']) (['h', 'i']) ?_
  rw [hrun]
  exact List.mem_singleton_self _

/-- Claim C6, the code evaluated at the failing input: document D has two
chunks, the cache already holds their embeddings, and the second embedding is
the zero vector while the query embedding is (1, 0). The scoring pass of
find_relevant_context succeeds and scores BOTH chunks, including the
zero-norm one: no guard excludes it (in numpy the 0/0 division produces nan
with a warning and the nan-scored chunk participates in the sort), contrary
to the claim that the offending chunk is excluded from ranking. The provider
used here always fails, showing no embedding call is even attempted: the pass
runs to completion with the degenerate vector included. -/
theorem scoring_no_exclusion :
    scoreDocs embedNeverW cosine_similarity [1, 0]
        [((['D'] : List Char), [['a'], ['b']])]
        [(cacheKey ['D'] 0, ([1, 0] : Vec)), (cacheKey ['D'] 1, ([0, 0] : Vec))]
      = (Except.ok [(cosine_similarity [1, 0] [1, 0], (['D'] : List Char), ['a']),
          (cosine_similarity [1, 0] [0, 0], (['D'] : List Char), ['b'])],
         [(cacheKey ['D'] 0, ([1, 0] : Vec)), (cacheKey ['D'] 1, ([0, 0] : Vec))]) := by
  rfl
